import Mathlib

/-
Verification of the point-sampling strategies of the KTHFormula plotting
script (exercise1.py).  Real numbers of the program are modelled as exact
rationals; the Python float division t = len(x)/resolution becomes division
in the rationals, and the integer resolution becomes an integer cast into
the rationals.  Each strategy method calculate_xy is embedded as a state
transformer on the accumulated point sequence.
-/

namespace KTHFormula

/-- Accumulated point sequence of a growing strategy: the lists x and y of
the Python classes.  Both growing plots start from the empty pair. -/
structure GrowingState where
  xs : List ℚ
  ys : List ℚ
deriving DecidableEq, Repr

/-- The initial (empty) accumulated sequence. -/
def GrowingState.empty : GrowingState := ⟨[], []⟩

/-- One loop iteration of ForwardAnimatingPlot.calculate_xy:
t = len(x)/resolution, then x.append(t) and y.append(function(t)). -/
def forwardStep (f : ℚ → ℚ) (res : ℤ) (s : GrowingState) : GrowingState :=
  let t : ℚ := (s.xs.length : ℚ) / (res : ℚ)
  { xs := s.xs ++ [t], ys := s.ys ++ [f t] }

/-- ForwardAnimatingPlot.calculate_xy: performs pointsPerCall loop
iterations on the accumulated sequence and returns the whole sequence
together with the updated state. -/
def forward_calculate_xy (f : ℚ → ℚ) (res : ℤ) (p : ℕ) (s : GrowingState) :
    (List ℚ × List ℚ) × GrowingState :=
  let s2 := (forwardStep f res)^[p] s
  ((s2.xs, s2.ys), s2)

/-- The accumulated state after k calls to ForwardAnimatingPlot.calculate_xy
with pointsPerCall p, starting from the empty sequence. -/
def forwardAfter (f : ℚ → ℚ) (res : ℤ) (p k : ℕ) : GrowingState :=
  (fun s => (forward_calculate_xy f res p s).2)^[k] GrowingState.empty

/-- Closed form of the forward strategy state: after n ever-executed loop
iterations the n-th appended x is n/res. -/
def forwardClosed (f : ℚ → ℚ) (res : ℤ) (n : ℕ) : GrowingState :=
  { xs := (List.range n).map (fun i : ℕ => (i : ℚ) / (res : ℚ)),
    ys := (List.range n).map (fun i : ℕ => f ((i : ℚ) / (res : ℚ))) }

lemma forwardStep_iterate (f : ℚ → ℚ) (res : ℤ) (n : ℕ) :
    (forwardStep f res)^[n] GrowingState.empty = forwardClosed f res n := by
  induction n with
  | zero => rfl
  | succ n ih =>
      rw [Function.iterate_succ_apply', ih]
      simp only [forwardStep, forwardClosed, List.length_map, List.length_range,
        List.range_succ, List.map_append, List.map_cons, List.map_nil]

lemma forwardAfter_eq (f : ℚ → ℚ) (res : ℤ) (p k : ℕ) :
    forwardAfter f res p k = forwardClosed f res (k * p) := by
  have h : forwardAfter f res p k = (forwardStep f res)^[p * k] GrowingState.empty := by
    rw [Function.iterate_mul]
    rfl
  rw [h, forwardStep_iterate, Nat.mul_comm]

/-- One loop iteration of BidirectionalAnimatingPlot.calculate_xy:
t = len(x)/resolution, then x.append(t), y.append(function(t)),
x.insert(0, -t), y.insert(0, function(-t)). -/
def bidirStep (f : ℚ → ℚ) (res : ℤ) (s : GrowingState) : GrowingState :=
  let t : ℚ := (s.xs.length : ℚ) / (res : ℚ)
  { xs := (-t) :: (s.xs ++ [t]), ys := f (-t) :: (s.ys ++ [f t]) }

/-- BidirectionalAnimatingPlot.calculate_xy: performs pointsPerCall loop
iterations on the accumulated sequence and returns the whole sequence
together with the updated state. -/
def bidir_calculate_xy (f : ℚ → ℚ) (res : ℤ) (p : ℕ) (s : GrowingState) :
    (List ℚ × List ℚ) × GrowingState :=
  let s2 := (bidirStep f res)^[p] s
  ((s2.xs, s2.ys), s2)

/-- The accumulated state after k calls to
BidirectionalAnimatingPlot.calculate_xy with pointsPerCall p, starting from
the empty sequence. -/
def bidirAfter (f : ℚ → ℚ) (res : ℤ) (p k : ℕ) : GrowingState :=
  (fun s => (bidir_calculate_xy f res p s).2)^[k] GrowingState.empty

/-- The x value produced on the right end by the i-th ever-executed loop
iteration of the bidirectional strategy: before that iteration the sequence
holds 2i points, so t = 2i/res. -/
def bidirX (res : ℤ) (i : ℕ) : ℚ := (2 * i : ℚ) / (res : ℚ)

/-- Closed form of the bidirectional strategy state after n ever-executed
loop iterations: the negated values in descending-index order on the left,
the appended values in ascending-index order on the right. -/
def bidirClosed (f : ℚ → ℚ) (res : ℤ) (n : ℕ) : GrowingState :=
  { xs := ((List.range n).map (fun i : ℕ => -(bidirX res i))).reverse
            ++ (List.range n).map (fun i : ℕ => bidirX res i),
    ys := ((List.range n).map (fun i : ℕ => f (-(bidirX res i)))).reverse
            ++ (List.range n).map (fun i : ℕ => f (bidirX res i)) }

lemma bidirClosed_xs_length (f : ℚ → ℚ) (res : ℤ) (n : ℕ) :
    (bidirClosed f res n).xs.length = 2 * n := by
  simp [bidirClosed]
  omega

lemma bidirStep_iterate (f : ℚ → ℚ) (res : ℤ) (n : ℕ) :
    (bidirStep f res)^[n] GrowingState.empty = bidirClosed f res n := by
  induction n with
  | zero => rfl
  | succ n ih =>
      rw [Function.iterate_succ_apply', ih]
      have hlen : ((bidirClosed f res n).xs.length : ℚ) / (res : ℚ) = bidirX res n := by
        rw [bidirClosed_xs_length, bidirX]
        push_cast
        ring_nf
      simp only [bidirStep, hlen]
      simp only [bidirClosed, List.range_succ, List.map_append, List.map_cons,
        List.map_nil, List.reverse_append, List.reverse_cons, List.reverse_nil,
        List.nil_append, List.cons_append, List.append_assoc]

lemma bidirAfter_eq (f : ℚ → ℚ) (res : ℤ) (p k : ℕ) :
    bidirAfter f res p k = bidirClosed f res (k * p) := by
  have h : bidirAfter f res p k = (bidirStep f res)^[p * k] GrowingState.empty := by
    rw [Function.iterate_mul]
    rfl
  rw [h, bidirStep_iterate, Nat.mul_comm]

lemma bidirX_nonneg {res : ℤ} (hres : 0 < res) (i : ℕ) : 0 ≤ bidirX res i := by
  have hq : (0 : ℚ) < (res : ℚ) := by exact_mod_cast hres
  unfold bidirX
  positivity

lemma bidirX_mono {res : ℤ} (hres : 0 < res) {i j : ℕ} (hij : i ≤ j) :
    bidirX res i ≤ bidirX res j := by
  have hq : (0 : ℚ) < (res : ℚ) := by exact_mod_cast hres
  unfold bidirX
  have h2 : (2 * i : ℚ) ≤ (2 * j : ℚ) := by
    have : (i : ℚ) ≤ (j : ℚ) := by exact_mod_cast hij
    linarith
  exact div_le_div_of_nonneg_right h2 hq.le

lemma bidirClosed_xs_sorted (f : ℚ → ℚ) {res : ℤ} (hres : 0 < res) (n : ℕ) :
    (bidirClosed f res n).xs.Pairwise (fun a b => a ≤ b) := by
  rw [bidirClosed]
  rw [List.pairwise_append]
  refine ⟨?_, ?_, ?_⟩
  · rw [List.pairwise_reverse, List.pairwise_map]
    exact (List.pairwise_lt_range n).imp
      (fun hab => neg_le_neg (bidirX_mono hres (Nat.le_of_lt hab)))
  · rw [List.pairwise_map]
    exact (List.pairwise_lt_range n).imp
      (fun hab => bidirX_mono hres (Nat.le_of_lt hab))
  · intro a ha b hb
    rw [List.mem_reverse, List.mem_map] at ha
    rw [List.mem_map] at hb
    obtain ⟨i, _, rfl⟩ := ha
    obtain ⟨j, _, rfl⟩ := hb
    calc -(bidirX res i) ≤ 0 := neg_nonpos.mpr (bidirX_nonneg hres i)
    _ ≤ bidirX res j := bidirX_nonneg hres j

/-- Claim C1: for the Forward-Growing strategy, after k calls to calculate_xy
with pointsPerCall p (k, p at least 1, resolution positive), the accumulated
sequence has exactly k*p points, the n-th ever-appended x equals n/res, and
the n-th y equals function(n/res). -/
theorem claim_C1_forward_growth (f : ℚ → ℚ) (res : ℤ) (p k : ℕ)
    (hk : 1 ≤ k) (hp : 1 ≤ p) (hres : 0 < res) :
    (forwardAfter f res p k).xs.length = k * p ∧
    (forwardAfter f res p k).xs =
      (List.range (k * p)).map (fun n : ℕ => (n : ℚ) / (res : ℚ)) ∧
    (forwardAfter f res p k).ys =
      (List.range (k * p)).map (fun n : ℕ => f ((n : ℚ) / (res : ℚ))) := by
  rw [forwardAfter_eq]
  refine ⟨?_, rfl, rfl⟩
  simp [forwardClosed]

/-- Witness for claim C1: f the identity, res = 2, p = 3, k = 2. -/
theorem claim_C1_witness :
    1 ≤ 2 ∧ 1 ≤ 3 ∧ (0 : ℤ) < 2 ∧
    (forwardAfter (fun t => t) 2 3 2).xs.length = 2 * 3 :=
  ⟨by decide, by decide, by decide,
    (claim_C1_forward_growth (fun t => t) 2 3 2 (by decide) (by decide)
      (by decide)).1⟩

/-- Claim C2: for the Bidirectional-Growing strategy, after k calls with
pointsPerCall p (k, p at least 1, resolution positive), the accumulated
sequence has exactly 2*k*p points and is symmetric: for every x value in the
sequence, -x is in the sequence as well. -/
theorem claim_C2_bidir_count_symmetry (f : ℚ → ℚ) (res : ℤ) (p k : ℕ)
    (hk : 1 ≤ k) (hp : 1 ≤ p) (hres : 0 < res) :
    (bidirAfter f res p k).xs.length = 2 * (k * p) ∧
    ∀ x ∈ (bidirAfter f res p k).xs, -x ∈ (bidirAfter f res p k).xs := by
  rw [bidirAfter_eq]
  refine ⟨bidirClosed_xs_length f res (k * p), ?_⟩
  intro x hx
  simp only [bidirClosed, List.mem_append, List.mem_reverse, List.mem_map,
    List.mem_range] at hx ⊢
  rcases hx with ⟨i, hi, rfl⟩ | ⟨i, hi, rfl⟩
  · right
    exact ⟨i, hi, (neg_neg _).symm⟩
  · left
    exact ⟨i, hi, rfl⟩

/-- Witness for claim C2: f the identity, res = 1, p = 2, k = 1. -/
theorem claim_C2_witness :
    1 ≤ 1 ∧ 1 ≤ 2 ∧ (0 : ℤ) < 1 ∧
    (bidirAfter (fun t => t) 1 2 1).xs.length = 2 * (1 * 2) :=
  ⟨by decide, by decide, by decide,
    (claim_C2_bidir_count_symmetry (fun t => t) 1 2 1 (by decide) (by decide)
      (by decide)).1⟩

/-- Claim C3 counterexample: with pointsPerCall 1 and resolution 1, after
one call the x sequence is [-0, 0] = [0, 0], because the first iteration
appends t = 0 and then prepends -t = 0; strict left-to-right increase fails
at this duplicated zero. -/
theorem claim_C3_counterexample :
    ¬ ((bidirAfter (fun t => t) 1 1 1).xs.Pairwise (fun a b => a < b)) := by
  rw [bidirAfter_eq]
  norm_num [bidirClosed, bidirX, show List.range (1 * 1) = [0] from rfl,
    List.pairwise_cons]

/-- Claim C3 amended: for the Bidirectional-Growing strategy, after every
call the x-values are sorted in NON-DECREASING order; strict increase fails
only because the value x = 0 is produced twice by the first iteration (as
the appended 0 and the prepended -0). -/
theorem claim_C3_amended_nondecreasing (f : ℚ → ℚ) (res : ℤ) (p k : ℕ)
    (hk : 1 ≤ k) (hp : 1 ≤ p) (hres : 0 < res) :
    (bidirAfter f res p k).xs.Pairwise (fun a b => a ≤ b) := by
  rw [bidirAfter_eq]
  exact bidirClosed_xs_sorted f hres (k * p)

/-- Witness for the amended claim C3: f the identity, res = 1, p = 1,
k = 1. -/
theorem claim_C3_witness :
    1 ≤ 1 ∧ (0 : ℤ) < 1 ∧
    (bidirAfter (fun t => t) 1 1 1).xs.Pairwise (fun a b => a ≤ b) :=
  ⟨by decide, by decide,
    claim_C3_amended_nondecreasing (fun t => t) 1 1 1 (by decide) (by decide)
      (by decide)⟩

/-- Claim C8 counterexample: with f(t) = t*t, resolution 4, pointsPerCall 2,
one call yields four points, not the three points [-1/2, 0, 1/2] stated by
the claim: the zero is duplicated. -/
theorem claim_C8_counterexample :
    (bidirAfter (fun t => t * t) 4 2 1).xs ≠ [-(1/2 : ℚ), 0, 1/2] := by
  rw [bidirAfter_eq]
  norm_num [bidirClosed, bidirX, show List.range (1 * 2) = [0, 1] from rfl]

/-- Claim C8 amended: with f(t) = t*t, resolution 4, pointsPerCall 2, one
call produces the points for t = 0 and t = 1/2 on both sides, giving the
ordered sequence xs = [-1/2, 0, 0, 1/2] (x = 0 appears twice) with
ys = [1/4, 0, 0, 1/4]. -/
theorem claim_C8_amended_scenario :
    (bidirAfter (fun t => t * t) 4 2 1).xs = [-(1/2 : ℚ), 0, 0, 1/2] ∧
    (bidirAfter (fun t => t * t) 4 2 1).ys = [1/4, 0, 0, (1/4 : ℚ)] := by
  rw [bidirAfter_eq]
  norm_num [bidirClosed, bidirX, show List.range (1 * 2) = [0, 1] from rfl]

/-- Claim C10: in the bidirectional strategy each loop iteration computes t
from the current sequence length, which grows by 2 per iteration, so the
i-th ever-executed iteration appends x = 2*i/res on the right and prepends
its negation on the left; consecutive appended x values hence differ by
2/res, not 1/res. -/
theorem claim_C10_bidir_spacing (f : ℚ → ℚ) (res : ℤ) (p k : ℕ)
    (hres : 0 < res) :
    (bidirAfter f res p k).xs =
      ((List.range (k * p)).map
          (fun i : ℕ => -((2 * i : ℚ) / (res : ℚ)))).reverse
        ++ (List.range (k * p)).map (fun i : ℕ => (2 * i : ℚ) / (res : ℚ)) ∧
    ∀ i : ℕ,
      (2 * (i + 1) : ℚ) / (res : ℚ) - (2 * i : ℚ) / (res : ℚ)
        = 2 / (res : ℚ) := by
  constructor
  · rw [bidirAfter_eq]
    rfl
  · intro i
    have hne : (res : ℚ) ≠ 0 := by
      have : (0 : ℚ) < (res : ℚ) := by exact_mod_cast hres
      exact ne_of_gt this
    field_simp
    ring

/-- Witness for claim C10: f the identity, res = 1, p = 1, k = 1. -/
theorem claim_C10_witness :
    (bidirAfter (fun t => t) 1 1 1).xs =
      ((List.range (1 * 1)).map
          (fun i : ℕ => -((2 * i : ℚ) / ((1 : ℤ) : ℚ)))).reverse
        ++ (List.range (1 * 1)).map
            (fun i : ℕ => (2 * i : ℚ) / ((1 : ℤ) : ℚ)) :=
  (claim_C10_bidir_spacing (fun t => t) 1 1 1 (by decide)).1

/-- np.linspace(a, b, n) over exact rationals: n evenly spaced values from a
to b inclusive.  numpy computes start + i*(b-a)/(n-1) and then overwrites
the final entry with the stop value; over the rationals the two coincide,
since a + (n-1)*(b-a)/(n-1) = b exactly.  For n = 1 numpy returns [start];
for n = 0 the empty array. -/
def linspace (a b : ℚ) (n : ℕ) : List ℚ :=
  if n = 0 then []
  else if n = 1 then [a]
  else (List.range n).map (fun i : ℕ => a + (b - a) * i / ((n : ℚ) - 1))

/-- The per-instance attributes of an InfinitePlot window that
calculate_xy reads: the function and the resolution.  The method assigns no
attribute, so it is embedded as a state transformer returning the state it
was given. -/
structure InfinitePlotState where
  function : ℚ → ℚ
  resolution : ℕ

/-- InfinitePlot.calculate_xy: reads the live view bounds, samples
resolution evenly spaced x values across them and evaluates the function at
each. -/
def InfinitePlot_calculate_xy (f : ℚ → ℚ) (res : ℕ) (xmin xmax : ℚ) :
    List ℚ × List ℚ :=
  let x := linspace xmin xmax res
  (x, x.map f)

/-- InfinitePlot.calculate_xy as a state transformer on the instance state:
the method performs no attribute assignment, so the state comes back
unchanged alongside the sample. -/
def InfinitePlot_tick (s : InfinitePlotState) (xmin xmax : ℚ) :
    (List ℚ × List ℚ) × InfinitePlotState :=
  (InfinitePlot_calculate_xy s.function s.resolution xmin xmax, s)

/-- FunctionPlotter construction for an InfinitePlot window:
the constructor stores the function and int(resolution) WITHOUT any
validation and performs the initial update.  The only failure possible on
that path is np.linspace raising ValueError for a negative sample count;
a zero resolution silently produces an empty sample. -/
def InfinitePlot_init (f : ℚ → ℚ) (resolution : ℤ) (xmin xmax : ℚ) :
    Except String (InfinitePlotState × (List ℚ × List ℚ)) :=
  if resolution < 0 then
    Except.error "ValueError: Number of samples must be non-negative"
  else
    Except.ok (⟨f, resolution.toNat⟩,
      InfinitePlot_calculate_xy f resolution.toNat xmin xmax)

lemma linspace_length (a b : ℚ) (n : ℕ) : (linspace a b n).length = n := by
  unfold linspace
  rcases Nat.eq_zero_or_pos n with h0 | hpos
  · simp [h0]
  · rcases Nat.lt_or_ge n 2 with h1 | h2
    · interval_cases n
      simp
    · have hn0 : n ≠ 0 := by omega
      have hn1 : n ≠ 1 := by omega
      simp [hn0, hn1]

lemma linspace_head (a b : ℚ) (n : ℕ) (hn : 1 < n) :
    (linspace a b n).head? = some a := by
  obtain ⟨m, rfl⟩ : ∃ m, n = m + 2 := ⟨n - 2, by omega⟩
  unfold linspace
  have hn0 : m + 2 ≠ 0 := by omega
  have hn1 : m + 2 ≠ 1 := by omega
  simp [hn0, hn1, List.range_succ_eq_map]

lemma linspace_last (a b : ℚ) (n : ℕ) (hn : 1 < n) :
    (linspace a b n).getLast? = some b := by
  obtain ⟨m, rfl⟩ : ∃ m, n = m + 2 := ⟨n - 2, by omega⟩
  unfold linspace
  have hn0 : m + 2 ≠ 0 := by omega
  have hn1 : m + 2 ≠ 1 := by omega
  have hrange : List.range (m + 2) = List.range (m + 1) ++ [m + 1] :=
    List.range_succ (m + 1)
  rw [if_neg hn0, if_neg hn1, hrange, List.map_append]
  simp only [List.map_cons, List.map_nil, List.getLast?_concat,
    Option.some.injEq]
  have hm1 : ((m : ℚ) + 1) ≠ 0 := by positivity
  have hcast : ((m + 2 : ℕ) : ℚ) - 1 = (m : ℚ) + 1 := by
    push_cast
    ring
  rw [hcast]
  have hcast2 : ((m + 1 : ℕ) : ℚ) = (m : ℚ) + 1 := by push_cast; ring
  rw [hcast2, mul_div_assoc, div_self hm1, mul_one]
  ring

/-- Claim C5: the Full-Range strategy returns exactly n points for every
view range [a, b] and resolution n; for n > 1 the first x is a and the last
x is b; for n = 1 it returns the single point a. -/
theorem claim_C5_fullrange_count_endpoints (f : ℚ → ℚ) (a b : ℚ) (n : ℕ) :
    (InfinitePlot_calculate_xy f n a b).1.length = n ∧
    (1 < n → (InfinitePlot_calculate_xy f n a b).1.head? = some a ∧
      (InfinitePlot_calculate_xy f n a b).1.getLast? = some b) ∧
    (n = 1 → (InfinitePlot_calculate_xy f n a b).1 = [a]) := by
  refine ⟨linspace_length a b n, fun hn => ⟨linspace_head a b n hn,
    linspace_last a b n hn⟩, fun hn => ?_⟩
  subst hn
  rfl

/-- Witness for claim C5: f the identity, view [0, 1], n = 3. -/
theorem claim_C5_witness :
    (InfinitePlot_calculate_xy (fun t => t) 3 0 1).1.head? = some 0 ∧
    (InfinitePlot_calculate_xy (fun t => t) 3 0 1).1.getLast? = some 1 :=
  (claim_C5_fullrange_count_endpoints (fun t => t) 0 1 3).2.1 (by decide)

/-- Claim C7: the Full-Range strategy is stateless and idempotent: a tick
leaves the instance state unchanged, and a second tick with the same view
bounds returns the same sample as the first. -/
theorem claim_C7_fullrange_idempotent (s : InfinitePlotState) (a b : ℚ) :
    (InfinitePlot_tick s a b).2 = s ∧
    (InfinitePlot_tick (InfinitePlot_tick s a b).2 a b).1 =
      (InfinitePlot_tick s a b).1 :=
  ⟨rfl, rfl⟩

/-- Claim C9: when the view bounds are degenerate (min = max = a), the
Full-Range strategy still returns a defined result: n copies of the single
point a, for every resolution n at least 1. -/
theorem claim_C9_degenerate_view (f : ℚ → ℚ) (a : ℚ) (n : ℕ) (hn : 1 ≤ n) :
    (InfinitePlot_calculate_xy f n a a).1 = List.replicate n a ∧
    (InfinitePlot_calculate_xy f n a a).1.length = n := by
  refine ⟨?_, linspace_length a a n⟩
  show linspace a a n = List.replicate n a
  unfold linspace
  rcases Nat.lt_or_ge n 2 with h1 | h2
  · interval_cases n
    · simp
  · have hn0 : n ≠ 0 := by omega
    have hn1 : n ≠ 1 := by omega
    rw [if_neg hn0, if_neg hn1]
    rw [List.eq_replicate_iff]
    constructor
    · simp
    · intro c hc
      rw [List.mem_map] at hc
      obtain ⟨i, _, rfl⟩ := hc
      simp

/-- Witness for claim C9: f the identity, a = 5, n = 3. -/
theorem claim_C9_witness :
    (InfinitePlot_calculate_xy (fun t => t) 3 5 5).1 = List.replicate 3 5 :=
  (claim_C9_degenerate_view (fun t => t) 5 3 (by decide)).1

/-- Claim C6 status, code side: the constructor performs NO validation of
the resolution.  With resolution 0 construction completes successfully and
the initial full-range sample is empty (degenerate), instead of failing
fast with a validation error as the spec requires. -/
theorem claim_C6_no_validation :
    InfinitePlot_init (fun t => t) 0 0 1 =
      Except.ok (⟨fun t => t, 0⟩, ([], [])) := rfl

/-- The attributes a ForwardAnimatingPlot instance owns privately: its
function and its resolution.  The accumulated lists x and y are NOT here:
in the source they are declared at class level (x = [] and y = [] in the
class body) and only mutated in place (append), so every instance of the
class resolves self.x and self.y to the one shared class-level pair. -/
structure ForwardInstanceData where
  function : ℚ → ℚ
  resolution : ℤ

/-- ForwardAnimatingPlot.calculate_xy as executed by one given instance:
it reads and mutates the class-level shared sequence, using the function
and resolution of the calling instance for the new points. -/
def forward_calculate_xy_shared (inst : ForwardInstanceData) (p : ℕ)
    (cs : GrowingState) : (List ℚ × List ℚ) × GrowingState :=
  forward_calculate_xy inst.function inst.resolution p cs

/-- A first forward-growing window, resolution 1. -/
def forwardWindowA : ForwardInstanceData := ⟨fun t => t, 1⟩

/-- A second forward-growing window of the same class, resolution 2. -/
def forwardWindowB : ForwardInstanceData := ⟨fun t => t, 2⟩

/-- Claim C4 status, code side: the accumulated sequence is class-level
shared state, so one tick of window A (resolution 1) changes the sequence
window B observes from [] to [0], and the very first sample of window B
(resolution 2) then returns [0, 1/2] - it contains the point appended by A
and computes its own t from the shared length. -/
theorem claim_C4_shared_state :
    ((forward_calculate_xy_shared forwardWindowA 1 GrowingState.empty).2).xs
      = [0] ∧
    (forward_calculate_xy_shared forwardWindowB 1
        ((forward_calculate_xy_shared forwardWindowA 1
          GrowingState.empty).2)).1.1 = [0, 1/2] := by
  constructor <;>
    norm_num [forward_calculate_xy_shared, forward_calculate_xy, forwardStep,
      GrowingState.empty, forwardWindowA, forwardWindowB]

end KTHFormula
